import Mathlib

/-!
Shallow embedding of the brand-analysis pipeline of The-Potato-Labs/swipe.

Source files embedded here:
- `src/service/brand_analysis_models.py` (Pydantic data model),
- `src/service/twelvelabs_analyze_brand.py` (orchestration: `analyze`,
  `analyze_video`, `_ingest_from_url`, `_wait_for_task`, the Redis key
  helpers `_brand_key`, `_redis_key_video_map`, `_redis_key_analysis`,
  and the URL helpers `_is_youtube_url`, `_extract_youtube_id`),
- `src/service/yt_rapidapi_dl.py` (`_pick_progressive_mp4`).

Embedding conventions:
- Python `Optional[str]` values become `Option String`; Python truthiness of
  such values (`if s:`) is `isT` below (`None` and `""` are falsy).
- Machine-external calls (the Twelve Labs SDK client, `json.loads`,
  `pydantic.model_validate`, `yt_dlp`, the Redis backend) are oracles:
  explicit function parameters gathered in environment structures, so
  theorems quantify over every possible upstream behaviour.
- String manipulation is modelled over `List Char` with structural
  recursion (the corresponding core `String` functions are implemented by
  well-founded recursion and do not reduce in the kernel).  Python's
  `str.lower` is modelled per-character with `Char.toLower`, adequate for
  the ASCII-regex normalisation in `_brand_key` and for host names.
- Side effects relevant to the claims are made explicit: the Redis cache is
  a key-value association list threaded through `analyze`, network and
  cache interactions are recorded in an `Effect` trace, and the temporary
  download file of `_ingest_from_url` is a Boolean file-system flag.
-/

/-! ## Data model (`brand_analysis_models.py`) -/

/-- `Timestamps` (Pydantic): start/end as `HH:MM:SS` strings.  The Python
field `end` is a Lean keyword, rendered `end_`. -/
structure Timestamps where
  start : String
  end_ : String

/-- `Chapter` (Pydantic). -/
structure Chapter where
  id : String
  title : String
  summary : String
  timestamps : Timestamps

/-- The `MentionType` closed literal enum. -/
inductive MentionType where
  | sponsor_segment
  | on_screen_element
  | verbal_mention
  | product_visual
  | product_demo
  | comparison_section
  | call_to_action
  | affiliate_disclosure
  | giveaway_or_promo
  | end_screen

/-- The `OnScreenSubtype` closed literal enum. -/
inductive OnScreenSubtype where
  | brand_name_text
  | logo
  | website
  | qr_code
  | coupon_code
  | lower_third
  | banner_overlay
  | card_overlay
  | watermark

/-- `BrandMention` (Pydantic).  `confidence` is a Python float; the claims
never compute with it, so `Float` is kept. -/
structure BrandMention where
  id : String
  mention_type : MentionType
  subtype : Option OnScreenSubtype := none
  description : String
  chapter_id : Option String := none
  timestamps : Timestamps
  placement : Option String := none
  text : Option String := none
  spoken_quote : Option String := none
  confidence : Float

/-- `BrandAnalysisOutput` (Pydantic): the `data` part of the envelope. -/
structure BrandAnalysisOutput where
  summary : String
  hashtags : List String
  topics : List String
  chapters : List Chapter
  brand_mentions : List BrandMention

/-- The empty-but-well-formed output substituted by `analyze_video` when
parsing or validation fails (lines 346-354 of the source). -/
def emptyBrandAnalysisOutput : BrandAnalysisOutput :=
  { summary := "", hashtags := [], topics := [], chapters := [], brand_mentions := [] }

/-- `ErrorDetail` (Pydantic).  `details` is an optional dict holding a
single stringified error in every use site; modelled as `Option String`. -/
structure ErrorDetail where
  code : String
  message : String
  details : Option String := none

/-- `BrandAnalysisMeta` (Pydantic).  `created_at : datetime` is modelled as
an abstract clock value (`Nat`). -/
structure BrandAnalysisMeta where
  provider : String := "twelvelabs"
  brand : String
  video_id : String
  index_id : Option String := none
  source_url : Option String := none
  created_at : Nat
  elapsed_ms : Nat
  schema_version : String := "brand_analysis.v1"
  schema_url : Option String := none
  trace_id : Option String := none

/-- `BrandAnalysisResult`: the stable `{data, meta, errors}` envelope. -/
structure BrandAnalysisResult where
  data : BrandAnalysisOutput
  meta : BrandAnalysisMeta
  errors : List ErrorDetail := []

/-! ## Python-truthiness helpers for `Optional[str]` -/

/-- Python truthiness of an `Optional[str]`: `None` and `""` are falsy. -/
def isT : Option String → Bool
  | none => false
  | some s => s ≠ ""

/-- Python `a or b` on `Optional[str]` values. -/
def orT (a b : Option String) : Option String :=
  if isT a then a else b

/-! ## List-of-characters string utilities (structural, kernel-computable) -/

/-- Boolean list equality-by-position test used below. -/
def isPrefixL : List Char → List Char → Bool
  | [], _ => true
  | _ :: _, [] => false
  | a :: as_, b :: bs => a = b && isPrefixL as_ bs

/-- Suffix test via reversal. -/
def isSuffixL (suf l : List Char) : Bool :=
  isPrefixL suf.reverse l.reverse

/-- Python `s.endswith(t)` on modelled strings. -/
def endsWithL (l suf : List Char) : Bool := isSuffixL suf l

/-- Split at the first occurrence of a separator character: returns the part
before and, when the separator occurs, the part after. -/
def splitFirstChar (c : Char) : List Char → List Char × Option (List Char)
  | [] => ([], none)
  | x :: xs =>
    if x = c then ([], some xs)
    else
      let r := splitFirstChar c xs
      (x :: r.1, r.2)

/-- Python `s.split(c)` for a single-character separator: always at least one
chunk, empty chunks preserved. -/
def splitAllChar (c : Char) : List Char → List (List Char)
  | [] => [[]]
  | x :: xs =>
    if x = c then [] :: splitAllChar c xs
    else
      match splitAllChar c xs with
      | [] => [[x]]
      | h :: t => (x :: h) :: t

/-- Split at the first occurrence of a multi-character separator. -/
def splitFirstSub (sep : List Char) : List Char → Option (List Char × List Char)
  | [] => if sep = [] then some ([], []) else none
  | x :: xs =>
    if isPrefixL sep (x :: xs) then some ([], (x :: xs).drop sep.length)
    else
      match splitFirstSub sep xs with
      | none => none
      | some (a, b) => some (x :: a, b)

/-- Per-character lowering, the model of Python `str.lower` (ASCII-faithful). -/
def lowerL (l : List Char) : List Char := l.map Char.toLower

/-! ## URL parsing (`urllib.parse.urlparse`, restricted to the shapes the
service handles: an optional scheme followed by `://`, then host, path,
query and fragment) -/

/-- The components of `urlparse` that the source reads. -/
structure ParsedUrl where
  scheme : List Char
  netloc : List Char
  path : List Char
  query : List Char
  fragment : List Char

/-- Model of `urllib.parse.urlparse` for scheme-qualified URLs: the fragment
follows the first `#`; a netloc is present after `scheme:` + `//` (or a
leading `//`) and extends to the next `/` or `?`; the query follows the
first `?` of the remainder. -/
def urlparseL (u : List Char) : ParsedUrl :=
  let pf := splitFirstChar '#' u
  let fragment := (pf.2).getD []
  let body := pf.1
  let withNetloc := fun (scheme rest : List Char) =>
    let netloc := rest.takeWhile (fun c => ¬ (c = '/' ∨ c = '?'))
    let after := rest.drop netloc.length
    let pq := splitFirstChar '?' after
    { scheme := scheme, netloc := netloc, path := pq.1,
      query := (pq.2).getD [], fragment := fragment : ParsedUrl }
  match splitFirstSub [':', '/', '/'] body with
  | some (sch, rest) => withNetloc (lowerL sch) rest
  | none =>
    if isPrefixL ['/', '/'] body then withNetloc [] (body.drop 2)
    else
      let pq := splitFirstChar '?' body
      { scheme := [], netloc := [], path := pq.1,
        query := (pq.2).getD [], fragment := fragment }

/-- `_is_youtube_url` (source lines 698-704): the lowercased host ends with
`youtube.com` or `youtu.be`. -/
def _is_youtube_url (url : String) : Bool :=
  let host := lowerL (urlparseL url.data).netloc
  endsWithL host "youtube.com".data || endsWithL host "youtu.be".data

/-- The query-string scan of `_extract_youtube_id` (source lines 733-739):
first `k=v` pair with key `v` and non-empty value. -/
def queryV : List (List Char) → Option (List Char)
  | [] => none
  | part :: rest =>
    if part = [] then queryV rest
    else
      let kv := splitFirstChar '=' part
      let v := (kv.2).getD []
      if kv.1 = ['v'] && v ≠ [] then some v else queryV rest

/-- `_extract_youtube_id` (source lines 707-742). -/
def _extract_youtube_id (url : Option String) : Option String :=
  match url with
  | none => none
  | some u =>
    if u = "" then none
    else
      let parsed := urlparseL u.data
      let host := lowerL parsed.netloc
      let path := parsed.path
      if endsWithL host "youtu.be".data then
        let vid := ((splitAllChar '/' (path.dropWhile (· = '/'))).headD [])
        if vid = [] then none else some ⟨vid⟩
      else if endsWithL host "youtube.com".data then
        let segments := (splitAllChar '/' path).filter (· ≠ [])
        match segments with
        | head :: _ =>
          if (head = "shorts".data ∨ head = "embed".data ∨ head = "live".data)
              ∧ segments.length ≥ 2 then
            let vid := segments.getD 1 []
            let vid := (splitAllChar '&' ((splitAllChar '?' vid).headD [])).headD []
            if vid = [] then none else some ⟨vid⟩
          else
            (queryV (splitAllChar '&' parsed.query)).map (⟨·⟩)
        | [] => (queryV (splitAllChar '&' parsed.query)).map (⟨·⟩)
      else none

/-! ## Brand normalization (`_brand_key`, source lines 901-904) -/

/-- A character kept by the regex class `[a-z0-9]` (the regex is applied to
the already-lowercased brand). -/
def isKeep (c : Char) : Bool :=
  ('a' ≤ c && c ≤ 'z') || ('0' ≤ c && c ≤ '9')

/-- Run-collapsing scan behind the model of `re.sub(r"[^a-z0-9]+", "_", s)`:
the flag records whether the scan is inside a run of non-kept characters
whose single `_` has already been emitted. -/
def subRunsAux : Bool → List Char → List Char
  | _, [] => []
  | inRun, c :: cs =>
    if isKeep c then c :: subRunsAux false cs
    else if inRun then subRunsAux true cs
    else '_' :: subRunsAux true cs

/-- Model of `re.sub(r"[^a-z0-9]+", "_", s)`: every maximal run of
non-kept characters becomes a single `_`. -/
def subRuns (l : List Char) : List Char := subRunsAux false l

/-- Python `s.strip("_")`: drop `_` from the front and from the back. -/
def stripSep (l : List Char) : List Char :=
  (((l.dropWhile (· = '_')).reverse.dropWhile (· = '_')).reverse)

/-- `_brand_key` (source): `re.sub(r"[^a-z0-9]+", "_", brand.lower()).strip("_")`. -/
def _brand_key (brand : String) : String :=
  ⟨stripSep (subRuns (lowerL brand.data))⟩

/-- The maximal kept-character runs of a character list, in order: the
canonical content `_brand_key` preserves.  Two brands whose lowercased
forms have the same `words` differ only in letter-casing and in
punctuation runs. -/
def words : List Char → List (List Char)
  | [] => []
  | [c] => if isKeep c then [[c]] else []
  | c :: d :: cs =>
    if isKeep c then
      if isKeep d then
        match words (d :: cs) with
        | [] => [[c]]
        | w :: ws => (c :: w) :: ws
      else [c] :: words (d :: cs)
    else words (d :: cs)

/-- Words joined by single separators (`List.intercalate` specialised so it
unfolds structurally). -/
def joinSep : List (List Char) → List Char
  | [] => []
  | [w] => w
  | w :: ws => w ++ '_' :: joinSep ws

/-- Whether a character list ends with a non-kept character. -/
def endsNonKeep : List Char → Bool
  | [] => false
  | [c] => ¬ isKeep c
  | _ :: d :: cs => endsNonKeep (d :: cs)

/-! ## Redis cache model and key helpers -/

/-- The Redis backend as seen through `get`/`set`: an association list of
string keys to string values, newest entry first. -/
def Cache := List (String × String)

/-- Backend `get`. -/
def Cache.get (c : Cache) (k : String) : Option String :=
  (List.find? (fun p => p.1 = k) c).map (·.2)

/-- Backend `set` (overwrites by shadowing older entries). -/
def Cache.set (c : Cache) (k v : String) : Cache :=
  (k, v) :: c

/-- `_redis_key_video_map` (source line 907-908). -/
def _redis_key_video_map (pfx yt_id : String) : String :=
  pfx ++ yt_id ++ ":tl_video_id"

/-- `_redis_key_analysis` (source line 911-912). -/
def _redis_key_analysis (pfx yt_id brand : String) : String :=
  pfx ++ yt_id ++ ":analysis:" ++ _brand_key brand

/-! ## The orchestrated `analyze` pipeline -/

/-- Observable interactions of one `analyze` call, in order. -/
inductive Effect where
  | cacheGet (key : String)
  | cacheSet (key : String)
  | ensureIndex
  | ingest (url : String)
  | waitIndexing (video_id : String)
  | generation (video_id : String)
deriving DecidableEq

/-- Whether an effect touches the cache backend. -/
def isCacheEffect : Effect → Bool
  | .cacheGet _ => true
  | .cacheSet _ => true
  | _ => false

/-- The upstream generation response of `self._client.analyze`, after
`model_dump`: the fields the source reads.  `dataText` is `some s` exactly
when the raw `data` field is a string (absent and non-string both take the
`missing_data` branch in the source and are both `none` here). -/
structure GenResponse where
  id : Option String
  dataText : Option String

/-- Typed upstream faults of `analyze`.  `inputError` is the `ValueError`
for missing inputs; the others wrap errors raised by `_ensure_index`,
`_ingest_from_url` and `_wait_for_indexing_ready`. -/
inductive AnalyzeErr where
  | inputError
  | indexError (msg : String)
  | ingestError (msg : String)
  | indexingTimeout
deriving DecidableEq

/-- Oracles for everything `analyze`/`analyze_video` call outside this
module: `parseJson` is `json.loads`, `validate` is
`BrandAnalysisOutput.model_validate`, `generate` is the SDK generation
call, `ensureIndex`/`ingest`/`waitIndexing` wrap the ingest stage (modelled
in detail separately as `_ingest_from_url`), `decodeEnv` is `json.loads` +
`BrandAnalysisResult.model_validate` on a cached value (`none` covers a
miss-shaped, falsy or invalid payload), `encodeEnv` is
`model_dump(mode="json")` + `json.dumps`. -/
structure AnalyzeEnv (J : Type) where
  parseJson : String → Except String J
  validate : J → Except String BrandAnalysisOutput
  generate : String → GenResponse
  genElapsedMs : String → Nat
  now : Nat
  ensureIndex : Except String String
  ingest : String → String → Except String String
  waitIndexing : String → Bool
  decodeEnv : String → Option BrandAnalysisResult
  encodeEnv : BrandAnalysisResult → String

/-- `analyze_video` (source lines 256-369): run the generation call, parse
and validate its textual `data` payload, classify failures, and always
return a complete envelope. -/
def analyze_video {J : Type} (env : AnalyzeEnv J) (indexId : Option String)
    (video_id brand : String) (source_url : Option String) : BrandAnalysisResult :=
  let raw := env.generate video_id
  let elapsed_ms := env.genElapsedMs video_id
  let parsed : List ErrorDetail × Option BrandAnalysisOutput :=
    match raw.dataText with
    | some data_text =>
      match env.parseJson data_text with
      | Except.ok parsed_json =>
        match env.validate parsed_json with
        | Except.ok obj => ([], some obj)
        | Except.error ve =>
          ([{ code := "validation_error",
              message := "Response did not match BrandAnalysisOutput schema.",
              details := some ve }], none)
      | Except.error pe =>
        ([{ code := "parse_error",
            message := "Response data was not valid JSON.",
            details := some pe }], none)
    | none =>
      ([{ code := "missing_data",
          message := "Analyze response missing text data field.",
          details := none }], none)
  let data := parsed.2.getD emptyBrandAnalysisOutput
  { data := data,
    meta :=
      { brand := brand, video_id := video_id, index_id := indexId,
        source_url := source_url, created_at := env.now,
        elapsed_ms := elapsed_ms, schema_url := some "/openapi.json",
        trace_id := if isT raw.id then raw.id else none },
    errors := parsed.1 }

/-- Inputs of `analyze` (source lines 372-382). -/
structure AnalyzeArgs where
  brand : String
  video_id : Option String := none
  youtube_url : Option String := none
  video_url : Option String := none

/-- The YouTube-id resolution at the top of `analyze` (source lines
388-393): `youtube_url` first, else a YouTube-shaped `video_url`. -/
def ytIdOf (youtube_url video_url : Option String) : Option String :=
  if isT youtube_url then _extract_youtube_id youtube_url
  else if isT video_url && _is_youtube_url (video_url.getD "") then
    _extract_youtube_id video_url
  else none

/-- Steps 3 and 4 of `analyze` (source lines 433-451): run `analyze_video`
and, for a YouTube source with a live cache, store the envelope under the
analysis key unconditionally. -/
def finishAnalyze {J : Type} (env : AnalyzeEnv J) (hasRedis : Bool)
    (indexId : Option String) (pfx : String) (cache : Cache) (a : AnalyzeArgs)
    (yt_id : Option String) (tr : List Effect) (video_id : String) :
    Except AnalyzeErr BrandAnalysisResult × Cache × List Effect :=
  let result := analyze_video env indexId video_id a.brand (orT a.youtube_url a.video_url)
  let tr := tr ++ [Effect.generation video_id]
  match yt_id, hasRedis with
  | some y, true =>
    let key := _redis_key_analysis pfx y a.brand
    (Except.ok result, Cache.set cache key (env.encodeEnv result), tr ++ [Effect.cacheSet key])
  | _, _ => (Except.ok result, cache, tr)

/-- `_ensure_index` as seen from `analyze` (source lines 410, 454-456): no
backend interaction when an index id is configured, otherwise one
resolve-or-create call that may raise. -/
def ensureIndexStep {J : Type} (env : AnalyzeEnv J) (indexIdCfg : Option String)
    (tr : List Effect) : Except String (String × List Effect) :=
  match indexIdCfg with
  | some i => Except.ok (i, tr)
  | none =>
    match env.ensureIndex with
    | Except.ok i => Except.ok (i, tr ++ [Effect.ensureIndex])
    | Except.error m => Except.error m

/-- Step 2 onwards of `analyze` (source lines 405-451): input validation,
index resolution, mapping-cache reuse, ingest, then analysis. -/
def analyzeRest {J : Type} (env : AnalyzeEnv J) (hasRedis : Bool)
    (indexIdCfg : Option String) (pfx : String) (cache : Cache) (a : AnalyzeArgs)
    (yt_id : Option String) (tr : List Effect) :
    Except AnalyzeErr BrandAnalysisResult × Cache × List Effect :=
  if isT a.video_id then
    finishAnalyze env hasRedis indexIdCfg pfx cache a yt_id tr (a.video_id.getD "")
  else
    let url? := orT a.youtube_url a.video_url
    if isT url? = false then (Except.error AnalyzeErr.inputError, cache, tr)
    else
      let url := url?.getD ""
      match ensureIndexStep env indexIdCfg tr with
      | Except.error m => (Except.error (AnalyzeErr.indexError m), cache, tr ++ [Effect.ensureIndex])
      | Except.ok (index_id, tr) =>
        -- mapping-cache reuse (yt id -> backend video id)
        let mapRead : Option String × List Effect :=
          match yt_id, hasRedis with
          | some y, true =>
            let mk := _redis_key_video_map pfx y
            let m := Cache.get cache mk
            ((if isT m then m else none), tr ++ [Effect.cacheGet mk])
          | _, _ => (none, tr)
        match mapRead with
        | (some vid, tr) => finishAnalyze env hasRedis (some index_id) pfx cache a yt_id tr vid
        | (none, tr) =>
          match env.ingest index_id url with
          | Except.error m =>
            (Except.error (AnalyzeErr.ingestError m), cache, tr ++ [Effect.ingest url])
          | Except.ok vid =>
            let tr := tr ++ [Effect.ingest url, Effect.waitIndexing vid]
            if env.waitIndexing vid = false then
              (Except.error AnalyzeErr.indexingTimeout, cache, tr)
            else
              match yt_id, hasRedis with
              | some y, true =>
                let mk := _redis_key_video_map pfx y
                finishAnalyze env hasRedis (some index_id) pfx
                  (Cache.set cache mk vid) a yt_id (tr ++ [Effect.cacheSet mk]) vid
              | _, _ => finishAnalyze env hasRedis (some index_id) pfx cache a yt_id tr vid

/-- `analyze` (source lines 372-451): resolve a YouTube id, consult the
analysis cache, then run the rest of the pipeline.  Returns the envelope or
the raised error, the final cache state and the interaction trace. -/
def analyze {J : Type} (env : AnalyzeEnv J) (hasRedis : Bool)
    (indexIdCfg : Option String) (pfx : String) (cache : Cache) (a : AnalyzeArgs) :
    Except AnalyzeErr BrandAnalysisResult × Cache × List Effect :=
  let yt_id := ytIdOf a.youtube_url a.video_url
  match yt_id, hasRedis with
  | some y, true =>
    let key := _redis_key_analysis pfx y a.brand
    match (Cache.get cache key).bind env.decodeEnv with
    | some res => (Except.ok res, cache, [Effect.cacheGet key])
    | none => analyzeRest env true indexIdCfg pfx cache a (some y) [Effect.cacheGet key]
  | _, _ => analyzeRest env hasRedis indexIdCfg pfx cache a yt_id []

/-! ## `yt_rapidapi_dl._pick_progressive_mp4` (source lines 81-122) -/

/-- JSON-ish values as produced by `resp.json()`: the shapes
`_pick_progressive_mp4` inspects.  `other` stands for payloads the function
only tests for truthiness or passes through. -/
inductive JVal where
  | s (v : String)
  | n (v : Int)
  | b (v : Bool)
  | arr (items : List JVal)
  | obj (fields : List (String × JVal))
  | null

/-- Python `dict.get` on the modelled object fields (first binding wins). -/
def jget (fields : List (String × JVal)) (k : String) : Option JVal :=
  (List.find? (fun p => p.1 = k) fields).map (·.2)

/-- Python truthiness of a JSON value. -/
def jtruthy : JVal → Bool
  | .s v => v ≠ ""
  | .n v => v ≠ 0
  | .b v => v
  | .arr items => !items.isEmpty
  | .obj fields => !fields.isEmpty
  | .null => false

/-- Python truthiness of `dict.get`'s result (`None` is falsy). -/
def jtruthyO : Option JVal → Bool
  | none => false
  | some v => jtruthy v

/-- Python `a or b` over `dict.get` results. -/
def jor (a b : Option JVal) : Option JVal :=
  if jtruthyO a then a else b

/-- Python `str(...)` for the values an `itag` field can carry.  Lists and
dicts render to their `repr`, modelled by markers that can never equal an
itag digit string. -/
def pystr : JVal → String
  | .s v => v
  | .n v => toString v
  | .b true => "True"
  | .b false => "False"
  | .arr _ => "[...]"
  | .obj _ => "(dict)"
  | .null => "None"

/-- The `itag` read in the loop: `str(it.get("itag")) if it.get("itag") is
not None else None`; a JSON `null` is Python `None`. -/
def itagOf (fields : List (String × JVal)) : Option String :=
  match jget fields "itag" with
  | none => none
  | some .null => none
  | some v => some (pystr v)

/-- Substring test on modelled strings (Python `in`). -/
def containsSub (sub : List Char) : List Char → Bool
  | [] => isPrefixL sub []
  | x :: xs => isPrefixL sub (x :: xs) || containsSub sub xs

/-- The `mime`/`type` condition `mime and "video/mp4" in mime`.  Python
raises `TypeError` for truthy non-string values; such payloads are outside
the resolver contract and the condition is modelled as false. -/
def mimeIsMp4 (m : Option JVal) : Bool :=
  match m with
  | some (.s v) => containsSub "video/mp4".data v.data
  | _ => false

/-- The body of `pick_from_list`, with the three `best*` accumulators made
explicit: `best22`/`best18` are overwritten on every tier match, `best_mp4`
keeps the first MP4-typed hit; the final `or`-chain keeps the first
non-`None`. -/
def pickLoop : List JVal → Option JVal → Option JVal → Option JVal → Option JVal
  | [], b22, b18, bm => (b22 <|> b18) <|> bm
  | it :: rest, b22, b18, bm =>
    match it with
    | .obj fields =>
      let url := jget fields "url"
      let mime := jor (jget fields "mime") (jget fields "type")
      let itag := itagOf fields
      if jtruthyO url = false then pickLoop rest b22 b18 bm
      else
        let u := url.getD .null
        let b22' := if itag = some "22" then some u else b22
        let b18' := if itag = some "22" then b18
                    else if itag = some "18" then some u else b18
        let bm' := if mimeIsMp4 mime && bm.isNone then some u else bm
        pickLoop rest b22' b18' bm'
    | _ => pickLoop rest b22 b18 bm

/-- `pick_from_list` (inner function of `_pick_progressive_mp4`): `None`
unless the node is a list. -/
def pick_from_list (node : JVal) : Option JVal :=
  match node with
  | .arr items => pickLoop items none none none
  | _ => none

/-- The key-path walk of the `for path in (("formats",), ("streamingData",
"formats"))` loop: follow the keys while each node is a dict that has the
key. -/
def jpath : JVal → List String → Option JVal
  | v, [] => some v
  | .obj fields, k :: ks =>
    match jget fields k with
    | some v => jpath v ks
    | none => none
  | _, _ :: _ => none

/-- `_pick_progressive_mp4` (source lines 81-122): try the top-level
`formats` list, then `streamingData.formats`, returning the first truthy
pick.  Every URL `pick_from_list` can return is truthy, so the source's
`if url: return url` is the first `some`. -/
def _pick_progressive_mp4 (data : JVal) : Option JVal :=
  match jpath data ["formats"] with
  | some node =>
    match pick_from_list node with
    | some u => some u
    | none =>
      match jpath data ["streamingData", "formats"] with
      | some node2 => pick_from_list node2
      | none => none
  | none =>
    match jpath data ["streamingData", "formats"] with
    | some node2 => pick_from_list node2
    | none => none

/-! ### Specification-shaped selection rule (for the refinement claim about
the picker: priority tiers itag 22, then itag 18, then any MP4-typed entry,
over the first format list that yields a URL) -/

/-- The truthy URL of a format entry, when the entry is a dict with one. -/
def entryUrl (it : JVal) : Option JVal :=
  match it with
  | .obj fields =>
    match jget fields "url" with
    | some u => if jtruthy u then some u else none
    | none => none
  | _ => none

/-- The truthy URL of an entry carrying the given itag. -/
def tierUrl (tag : String) (it : JVal) : Option JVal :=
  match it with
  | .obj fields =>
    if itagOf fields = some tag then entryUrl it else none
  | _ => none

/-- The truthy URL of an MP4-typed entry (`mime` or `type` contains
`video/mp4`). -/
def mp4Url (it : JVal) : Option JVal :=
  match it with
  | .obj fields =>
    if mimeIsMp4 (jor (jget fields "mime") (jget fields "type")) then entryUrl it
    else none
  | _ => none

/-- Last hit of a selector over a list. -/
def lastHit (f : JVal → Option JVal) : List JVal → Option JVal
  | [] => none
  | x :: xs => lastHit f xs <|> f x

/-- First hit of a selector over a list. -/
def firstHit (f : JVal → Option JVal) : List JVal → Option JVal
  | [] => none
  | x :: xs => f x <|> firstHit f xs

/-- The claimed selection rule over one format list: the preferred tier
(itag 22) first, then the lower tier (itag 18), then any MP4-typed entry. -/
def tierSelect (node : JVal) : Option JVal :=
  match node with
  | .arr items =>
    (lastHit (tierUrl "22") items <|> lastHit (tierUrl "18") items)
      <|> firstHit mp4Url items
  | _ => none

/-- The claimed overall rule: the top-level `formats` list first, then the
nested `streamingData.formats`, stopping at the first list that yields a
URL. -/
def specPickMp4 (data : JVal) : Option JVal :=
  (jpath data ["formats"]).bind tierSelect
    <|> (jpath data ["streamingData", "formats"]).bind tierSelect

/-! ## `_wait_for_task` (source lines 619-630) and `_ingest_from_url`
(source lines 499-617) -/

/-- Outcome of the polling loop: a terminal status string returned to the
caller, a raised `TimeoutError`, or the model artifact of exhausted fuel
(unreachable for a positive poll interval, see `waitLoop_timeout`). -/
inductive TaskWait where
  | finished (status : String)
  | timeout
  | diverge
deriving DecidableEq

/-- The polling loop of `_wait_for_task`: poll, return if the status is
terminal, raise `TimeoutError` once past the deadline, else sleep one
interval.  Modelled time starts at 0 and advances only during sleeps;
`retrieve i` is the status reported by the i-th poll. -/
def waitLoop (retrieve : Nat → String) (deadline interval : Nat) :
    Nat → Nat → Nat → TaskWait
  | 0, _, _ => TaskWait.diverge
  | fuel + 1, now, i =>
    let status := retrieve i
    if status = "ready" ∨ status = "failed" then TaskWait.finished status
    else if deadline < now then TaskWait.timeout
    else waitLoop retrieve deadline interval fuel (now + interval) (i + 1)

/-- `_wait_for_task`: deadline is `timeout_sec` from a start time of 0; the
fuel `timeout_sec + 2` is sufficient for any positive interval. -/
def _wait_for_task (retrieve : Nat → String) (timeout_sec poll_interval : Nat) :
    TaskWait :=
  waitLoop retrieve timeout_sec poll_interval (timeout_sec + 2) 0 0

/-- Typed faults of `_ingest_from_url`, one per `raise` site (`timeoutErr`
is the `TimeoutError` raised inside `_wait_for_task`; the others are the
`RuntimeError`s of the ingest path; `createRejected` re-raises the
URL-registration failure when no fallback applies; `modelDiverge` mirrors
`TaskWait.diverge`). -/
inductive IngestError where
  | createRejected
  | downloadFailed
  | uploadFailed
  | missingTaskId
  | timeoutErr
  | indexingFailed (status : String)
  | missingVideoId
  | modelDiverge
deriving DecidableEq

/-- Oracles for `_ingest_from_url`: the RapidAPI resolver (`None` covers
both an unresolvable video and an unimportable helper), the two
`tasks.create` entry points (`Except.error` is a raised SDK exception, the
payload is the task id attribute, possibly absent), the yt-dlp download
(`downloadOk = false` is a `None` return), the status poller and the
`video_id` attribute of the completed task. -/
structure IngestEnv where
  resolveDirect : String → Option String
  createUrlTask : String → Except Unit (Option String)
  downloadOk : Bool
  createFileTask : Except Unit (Option String)
  retrieve : Nat → String
  taskVideoId : Option String

/-- The resolver step at the top of `_ingest_from_url` (source lines
504-515): for a YouTube URL, replace the ingest URL by a truthy resolved
direct URL when one is found. -/
def resolvedVideoUrl (env : IngestEnv) (url : String) : String :=
  if _is_youtube_url url then
    match env.resolveDirect url with
    | some d => if d ≠ "" then d else url
    | none => url
  else url

/-- The tail of `_ingest_from_url` after a `tasks.create` succeeded (source
lines 604-617): require a truthy task id, wait for the task, require status
`ready`, require a truthy `video_id`. -/
def ingestAfterTask (env : IngestEnv) (timeout_sec poll_interval : Nat)
    (t : Option String) : Except IngestError String :=
  if isT t = false then Except.error IngestError.missingTaskId
  else
    match _wait_for_task env.retrieve timeout_sec poll_interval with
    | TaskWait.diverge => Except.error IngestError.modelDiverge
    | TaskWait.timeout => Except.error IngestError.timeoutErr
    | TaskWait.finished st =>
      if st ≠ "ready" then Except.error (IngestError.indexingFailed st)
      else if isT env.taskVideoId = false then Except.error IngestError.missingVideoId
      else Except.ok (env.taskVideoId.getD "")

/-- Removal of the scoped temporary file in the `finally` block: `os.remove`
deletes the file (removal errors are swallowed by the source and cannot
leave the file in place in this single-call model). -/
def removeTemp (_tempExists : Bool) : Bool := false

/-- `_ingest_from_url` (source lines 499-617).  The second component is the
final state of the temporary-file flag: whether the scoped download file
still exists when the call returns or raises.  The fallback branch runs
only when the URL registration raised, the URL is YouTube-shaped and the
fallback is allowed; its `finally` removes the temporary file on both the
success and the exception path before any waiting happens. -/
def _ingest_from_url (env : IngestEnv) (allow_fallback : Bool)
    (timeout_sec poll_interval : Nat) (url : String) :
    Except IngestError String × Bool :=
  let video_url := resolvedVideoUrl env url
  match env.createUrlTask video_url with
  | Except.ok t => (ingestAfterTask env timeout_sec poll_interval t, false)
  | Except.error _ =>
    if _is_youtube_url url && allow_fallback then
      if env.downloadOk = false then (Except.error IngestError.downloadFailed, false)
      else
        -- temporary file now exists; both exits pass through `removeTemp`
        match env.createFileTask with
        | Except.error _ => (Except.error IngestError.uploadFailed, removeTemp true)
        | Except.ok t => (ingestAfterTask env timeout_sec poll_interval t, removeTemp true)
    else (Except.error IngestError.createRejected, false)

/-- The leading separator `re.sub` leaves when the scan starts inside a
non-kept run. -/
def leadSep (l : List Char) : List Char :=
  match l with
  | [] => []
  | c :: _ => if isKeep c then [] else ['_']

/-- The trailing separator `re.sub` leaves when the input ends in a
non-kept run after at least one word. -/
def trailSep (l : List Char) : List Char :=
  if endsNonKeep l && !(words l).isEmpty then ['_'] else []

/-- A concrete environment (witness instrumentation): the generation call
returns non-JSON text, the cache decodes nothing. -/
def envW : AnalyzeEnv Unit where
  parseJson := fun _ => Except.error "not json"
  validate := fun _ => Except.ok emptyBrandAnalysisOutput
  generate := fun _ => { id := some "gen1", dataText := some "not json" }
  genElapsedMs := fun _ => 5
  now := 0
  ensureIndex := Except.ok "idx1"
  ingest := fun _ _ => Except.ok "vid1"
  waitIndexing := fun _ => true
  decodeEnv := fun _ => none
  encodeEnv := fun _ => "enc"

/-- A concrete ingest environment whose task never leaves the pending
state (witness instrumentation). -/
def ingestEnvW : IngestEnv where
  resolveDirect := fun _ => none
  createUrlTask := fun _ => Except.ok (some "task1")
  downloadOk := true
  createFileTask := Except.ok (some "task1")
  retrieve := fun _ => "pending"
  taskVideoId := some "vidX"

/-- A concrete ingest environment that rejects URL registration (witness
instrumentation). -/
def ingestEnvW2 : IngestEnv where
  resolveDirect := fun _ => none
  createUrlTask := fun _ => Except.error ()
  downloadOk := true
  createFileTask := Except.ok (some "task2")
  retrieve := fun _ => "ready"
  taskVideoId := some "vidX"

/-- A concrete cached envelope (witness instrumentation). -/
def envC4res : BrandAnalysisResult :=
  { data := emptyBrandAnalysisOutput,
    meta := { brand := "Coca-Cola", video_id := "v0", created_at := 0, elapsed_ms := 0 },
    errors := [] }

/-- A concrete environment whose cache decode recognises the stored text
(witness instrumentation). -/
def envHit : AnalyzeEnv Unit :=
  { envW with decodeEnv := fun s => if s = "stored" then some envC4res else none }

/-- A concrete cache holding one analysis entry (witness
instrumentation). -/
def cacheW : Cache :=
  [(_redis_key_analysis "ba:yt:" "abc123" "Coca-Cola", "stored")]

/-- A concrete cache holding one corrupt analysis entry (witness
instrumentation). -/
def cacheW2 : Cache :=
  [(_redis_key_analysis "ba:yt:" "abc123" "Nike", "junk")]

/-- Concrete inputs of the unconditional-cache-write scenario (witness and
counterexample instrumentation). -/
def argsC2 : AnalyzeArgs :=
  { brand := "Nike", video_id := some "v1",
    youtube_url := some "https://www.youtube.com/watch?v=abc123" }

/-- The envelope the concrete failed run computes (its generation payload is
non-JSON, so `errors` is non-empty). -/
def rC2 : BrandAnalysisResult :=
  analyze_video envW (some "idx0") "v1" "Nike"
    (some "https://www.youtube.com/watch?v=abc123")

/-- The analysis key of the concrete run. -/
def keyC2 : String := _redis_key_analysis "ba:yt:" "abc123" "Nike"

/-- The cache state after the concrete failed run. -/
def cacheC2 : Cache := Cache.set [] keyC2 (envW.encodeEnv rC2)

/-- The trace of the concrete failed run. -/
def trC2 : List Effect :=
  [Effect.cacheGet keyC2, Effect.generation "v1", Effect.cacheSet keyC2]

/-! # Theorems -/

/-- C1: For every call to `analyze_video`, regardless of whether the
upstream generation response is missing, malformed, or schema-invalid, the
returned envelope's `data` field is a well-formed `BrandAnalysisOutput`
(the empty output with empty string summary and empty hashtags, topics,
chapters and brand_mentions lists is substituted on failure); callers never
receive a partial or absent `data` object even when `errors` is non-empty:
either the payload parsed and validated and `errors` is empty, or `errors`
is non-empty and `data` is exactly the empty substitute. -/
theorem analyze_video_data_always_wellformed {J : Type} (env : AnalyzeEnv J)
    (indexId : Option String) (video_id brand : String) (source_url : Option String) :
    ((analyze_video env indexId video_id brand source_url).errors = [] ∧
      ∃ s j, (env.generate video_id).dataText = some s ∧
        env.parseJson s = Except.ok j ∧
        env.validate j = Except.ok (analyze_video env indexId video_id brand source_url).data)
    ∨ ((analyze_video env indexId video_id brand source_url).errors ≠ [] ∧
        (analyze_video env indexId video_id brand source_url).data = emptyBrandAnalysisOutput) := by
  simp only [analyze_video]
  cases hdt : (env.generate video_id).dataText with
  | none => simp
  | some s =>
    cases hp : env.parseJson s with
    | error pe => simp [hp]
    | ok j =>
      cases hv : env.validate j with
      | error ve => simp [hp, hv]
      | ok o =>
        left
        refine ⟨by simp [hp, hv], s, j, by simp, ?_, ?_⟩ <;> simp [hp, hv]

/-- C5: If the generation response's textual `data` field is a string that
is not valid JSON, `analyze_video` returns (it is a total function: the
call does not raise) an envelope whose `errors` list contains an entry with
code `parse_error` and whose `data` has `chapters` and `brand_mentions`
equal to the empty list. -/
theorem analyze_video_parse_error {J : Type} (env : AnalyzeEnv J)
    (indexId : Option String) (video_id brand : String) (source_url : Option String)
    (s msg : String)
    (hdt : (env.generate video_id).dataText = some s)
    (hp : env.parseJson s = Except.error msg) :
    (∃ e ∈ (analyze_video env indexId video_id brand source_url).errors,
        e.code = "parse_error")
    ∧ (analyze_video env indexId video_id brand source_url).data.chapters = []
    ∧ (analyze_video env indexId video_id brand source_url).data.brand_mentions = [] := by
  simp only [analyze_video, hdt, hp]
  simp [emptyBrandAnalysisOutput]

/-- Witness for C5 at a concrete non-JSON payload. -/
theorem analyze_video_parse_error_witness :
    ((envW.generate "v1").dataText = some "not json"
      ∧ envW.parseJson "not json" = Except.error "not json")
    ∧ ((∃ e ∈ (analyze_video envW (some "idx1") "v1" "Nike" none).errors,
          e.code = "parse_error")
        ∧ (analyze_video envW (some "idx1") "v1" "Nike" none).data.chapters = []
        ∧ (analyze_video envW (some "idx1") "v1" "Nike" none).data.brand_mentions = []) :=
  ⟨⟨rfl, rfl⟩,
    analyze_video_parse_error envW (some "idx1") "v1" "Nike" none "not json" "not json" rfl rfl⟩

/-- C3: For any call to `analyze` where `video_id`, `youtube_url` and
`video_url` are all absent, the pipeline raises the input `ValueError`
before making any network call and before touching the cache backend: the
result is `inputError`, the cache is unchanged and the interaction trace is
empty. -/
theorem analyze_missing_inputs_fails_before_any_call {J : Type} (env : AnalyzeEnv J)
    (hasRedis : Bool) (indexIdCfg : Option String) (pfx : String) (cache : Cache)
    (brand : String) :
    analyze env hasRedis indexIdCfg pfx cache { brand := brand } =
      (Except.error AnalyzeErr.inputError, cache, []) := by
  cases hasRedis <;> rfl

/-- Associativity of `Option`'s first-hit choice. -/
theorem optOrElse_assoc {α : Type} (a b c : Option α) :
    ((a <|> b) <|> c) = (a <|> (b <|> c)) := by
  cases a <;> rfl

/-- The accumulator loop of `pick_from_list` computes the three-tier
priority choice: last itag-22 hit, else last itag-18 hit, else first
MP4-typed hit, else the initial accumulators in the same order. -/
theorem pickLoop_eq : ∀ (items : List JVal) (b22 b18 bm : Option JVal),
    pickLoop items b22 b18 bm =
      (((lastHit (tierUrl "22") items <|> b22)
          <|> (lastHit (tierUrl "18") items <|> b18))
        <|> (bm <|> firstHit mp4Url items)) := by
  intro items
  induction items with
  | nil =>
    intro b22 b18 bm
    simp [pickLoop, lastHit, firstHit]
  | cons it rest ih =>
    intro b22 b18 bm
    cases it with
    | obj fields =>
      simp only [pickLoop]
      cases hg : jget fields "url" with
      | none =>
        have hent : entryUrl (JVal.obj fields) = none := by simp [entryUrl, hg]
        rw [if_pos (show jtruthyO none = false from rfl), ih]
        simp [lastHit, firstHit, tierUrl, mp4Url, hent]
      | some u =>
        by_cases htu : jtruthy u = true
        · have hent : entryUrl (JVal.obj fields) = some u := by
            simp [entryUrl, hg, htu]
          rw [if_neg (show ¬ (jtruthyO (some u) = false) by simp [jtruthyO, htu]), ih]
          simp only [lastHit, firstHit, tierUrl, mp4Url, hent, hg, Option.getD_some]
          have h22' : ∀ x : Option JVal,
              (((if itagOf fields = some "22" then some u else none) <|> x)
                = (if itagOf fields = some "22" then some u else x)) := by
            intro x
            by_cases h : itagOf fields = some "22" <;> simp [h]
          have h18' : (((if itagOf fields = some "18" then some u else none) <|> b18)
              = (if itagOf fields = some "22" then b18
                  else if itagOf fields = some "18" then some u else b18)) := by
            by_cases ha : itagOf fields = some "22"
            · have hb : ¬ itagOf fields = some "18" := by rw [ha]; simp
              simp [ha, hb]
            · by_cases hb : itagOf fields = some "18" <;> simp [ha, hb]
          have hm4' : ((bm <|> ((if mimeIsMp4 (jor (jget fields "mime") (jget fields "type"))
                  then some u else none) <|> firstHit mp4Url rest))
              = ((if mimeIsMp4 (jor (jget fields "mime") (jget fields "type")) && bm.isNone
                  then some u else bm) <|> firstHit mp4Url rest)) := by
            cases bm with
            | some v => simp
            | none =>
              by_cases h : mimeIsMp4 (jor (jget fields "mime") (jget fields "type")) = true <;>
                simp [h]
          have e22 : ((lastHit (tierUrl "22") rest
                  <|> (if itagOf fields = some "22" then some u else none)) <|> b22)
              = (lastHit (tierUrl "22") rest
                  <|> (if itagOf fields = some "22" then some u else b22)) := by
            rw [optOrElse_assoc, h22' b22]
          have e18 : ((lastHit (tierUrl "18") rest
                  <|> (if itagOf fields = some "18" then some u else none)) <|> b18)
              = (lastHit (tierUrl "18") rest
                  <|> (if itagOf fields = some "22" then b18
                        else if itagOf fields = some "18" then some u else b18)) := by
            rw [optOrElse_assoc, h18']
          rw [e22, e18, hm4']
        · have hju : jtruthy u = false := by revert htu; cases jtruthy u <;> simp
          have hent : entryUrl (JVal.obj fields) = none := by simp [entryUrl, hg, hju]
          rw [if_pos (show jtruthyO (some u) = false by simp [jtruthyO, hju]), ih]
          simp [lastHit, firstHit, tierUrl, mp4Url, hent]
    | s v =>
      simp only [pickLoop]
      rw [ih]
      simp [lastHit, firstHit, tierUrl, mp4Url]
    | n v =>
      simp only [pickLoop]
      rw [ih]
      simp [lastHit, firstHit, tierUrl, mp4Url]
    | b v =>
      simp only [pickLoop]
      rw [ih]
      simp [lastHit, firstHit, tierUrl, mp4Url]
    | arr l =>
      simp only [pickLoop]
      rw [ih]
      simp [lastHit, firstHit, tierUrl, mp4Url]
    | null =>
      simp only [pickLoop]
      rw [ih]
      simp [lastHit, firstHit, tierUrl, mp4Url]

/-- `pick_from_list` is exactly the tier-priority selection over a list
node. -/
theorem pick_from_list_eq (node : JVal) : pick_from_list node = tierSelect node := by
  cases node <;> simp [pick_from_list, tierSelect, pickLoop_eq]

/-- C8: For any resolver response, the selection rule picks a progressive
MP4 by preferred quality tier in strict priority order — the higher named
tier (itag 22) first, then the lower tier (itag 18), then falling back to
any MP4-typed entry — and the top-level `formats` list is consulted before
the nested `streamingData.formats` list, stopping at the first list that
yields a URL: `_pick_progressive_mp4` equals the specification-shaped
`specPickMp4`. -/
theorem pick_progressive_mp4_selection_rule (data : JVal) :
    _pick_progressive_mp4 data = specPickMp4 data := by
  unfold _pick_progressive_mp4 specPickMp4
  simp only [pick_from_list_eq]
  cases h1 : jpath data ["formats"] with
  | none =>
    cases h2 : jpath data ["streamingData", "formats"] <;> simp
  | some node =>
    cases h3 : tierSelect node with
    | some u => simp [h3]
    | none =>
      cases h2 : jpath data ["streamingData", "formats"] <;> simp [h3]

/-- With a positive poll interval and enough fuel, a never-terminal task
drives the polling loop to the timeout branch. -/
theorem waitLoop_timeout (retrieve : Nat → String) (deadline interval : Nat)
    (hpend : ∀ i, retrieve i ≠ "ready" ∧ retrieve i ≠ "failed") :
    ∀ fuel now i, deadline < now + fuel * interval →
      waitLoop retrieve deadline interval (fuel + 1) now i = TaskWait.timeout := by
  intro fuel
  induction fuel with
  | zero =>
    intro now i h
    simp only [Nat.zero_mul, Nat.add_zero] at h
    simp [waitLoop, (hpend i).1, (hpend i).2, h]
  | succ n ihn =>
    intro now i h
    by_cases hd : deadline < now
    · simp [waitLoop, (hpend i).1, (hpend i).2, hd]
    · have hnext : deadline < (now + interval) + n * interval := by
        calc deadline < now + (n + 1) * interval := h
        _ = now + interval + n * interval := by ring
      simp only [waitLoop, (hpend i).1, (hpend i).2, hd]
      simp only [or_self, if_false, if_neg hd]
      exact ihn (now + interval) (i + 1) hnext

/-- C6: If the polling deadline elapses while the ingest task's status is
still non-terminal (neither `ready` nor `failed`), the poller raises a
`TimeoutError` (the ingest call fails with `timeoutErr`), and this error is
distinguishable from the one raised when the backend explicitly reports the
task as `failed` (the non-timeout `indexingFailed` error). -/
theorem wait_for_task_timeout_distinguished (env : IngestEnv) (allow_fallback : Bool)
    (timeout_sec poll_interval : Nat) (url tid : String)
    (hiv : 1 ≤ poll_interval)
    (hcr : env.createUrlTask (resolvedVideoUrl env url) = Except.ok (some tid))
    (htid : tid ≠ "") :
    ((∀ i, env.retrieve i ≠ "ready" ∧ env.retrieve i ≠ "failed") →
        (_ingest_from_url env allow_fallback timeout_sec poll_interval url).1
          = Except.error IngestError.timeoutErr)
    ∧ (env.retrieve 0 = "failed" →
        (_ingest_from_url env allow_fallback timeout_sec poll_interval url).1
          = Except.error (IngestError.indexingFailed "failed"))
    ∧ IngestError.timeoutErr ≠ IngestError.indexingFailed "failed" := by
  refine ⟨?_, ?_, by simp⟩
  · intro hpend
    have hfuel : timeout_sec < 0 + (timeout_sec + 1) * poll_interval := by
      have h1 : (timeout_sec + 1) * 1 ≤ (timeout_sec + 1) * poll_interval :=
        Nat.mul_le_mul_left _ hiv
      simp only [Nat.mul_one] at h1
      omega
    have hw : _wait_for_task env.retrieve timeout_sec poll_interval = TaskWait.timeout := by
      have := waitLoop_timeout env.retrieve timeout_sec poll_interval hpend
        (timeout_sec + 1) 0 0 hfuel
      simpa [_wait_for_task] using this
    simp [_ingest_from_url, hcr, ingestAfterTask, isT, htid, hw]
  · intro hf
    have hw : _wait_for_task env.retrieve timeout_sec poll_interval
        = TaskWait.finished "failed" := by
      simp [_wait_for_task, waitLoop, hf]
    simp [_ingest_from_url, hcr, ingestAfterTask, isT, htid, hw]

/-- Witness for C6: a concrete always-pending task times out. -/
theorem wait_for_task_timeout_distinguished_witness :
    (1 ≤ 10
      ∧ ingestEnvW.createUrlTask
          (resolvedVideoUrl ingestEnvW "https://www.youtube.com/watch?v=abc")
          = Except.ok (some "task1")
      ∧ "task1" ≠ "")
    ∧ (_ingest_from_url ingestEnvW true 30 10 "https://www.youtube.com/watch?v=abc").1
        = Except.error IngestError.timeoutErr :=
  ⟨⟨by decide, rfl, by decide⟩,
    (wait_for_task_timeout_distinguished ingestEnvW true 30 10
        "https://www.youtube.com/watch?v=abc" "task1" (by decide) rfl (by decide)).1
      (fun _ => ⟨(by decide : ("pending" : String) ≠ "ready"),
        (by decide : ("pending" : String) ≠ "failed")⟩)⟩

/-- C7: When URL-based task registration is rejected and the local-download
fallback runs (the temporary file is created and its upload attempted), the
temporary file is deleted on every exit path of the ingest call — whether
the upload succeeds or any exception is raised afterwards — so the file no
longer exists when `_ingest_from_url` returns or raises. -/
theorem ingest_fallback_temp_file_removed (env : IngestEnv) (allow_fallback : Bool)
    (timeout_sec poll_interval : Nat) (url : String)
    (hrej : env.createUrlTask (resolvedVideoUrl env url) = Except.error ())
    (hyt : _is_youtube_url url = true)
    (hfb : allow_fallback = true)
    (hdl : env.downloadOk = true) :
    (_ingest_from_url env allow_fallback timeout_sec poll_interval url).2 = false := by
  simp only [_ingest_from_url, hrej]
  cases hcf : env.createFileTask <;> simp [hyt, hfb, hdl, hcf, removeTemp]

/-- Witness for C7: the concrete fallback upload leaves no temporary
file. -/
theorem ingest_fallback_temp_file_removed_witness :
    (ingestEnvW2.createUrlTask
        (resolvedVideoUrl ingestEnvW2 "https://www.youtube.com/watch?v=abc")
        = Except.error ()
      ∧ _is_youtube_url "https://www.youtube.com/watch?v=abc" = true
      ∧ ingestEnvW2.downloadOk = true)
    ∧ (_ingest_from_url ingestEnvW2 true 30 10 "https://www.youtube.com/watch?v=abc").2
        = false :=
  ⟨⟨rfl, by decide, rfl⟩,
    ingest_fallback_temp_file_removed ingestEnvW2 true 30 10
      "https://www.youtube.com/watch?v=abc" rfl (by decide) rfl rfl⟩

/-- Kept characters are never the separator. -/
theorem keep_ne_sep {c : Char} (h : isKeep c = true) : ¬ (c = '_') := by
  intro heq
  subst heq
  exact absurd h (by decide)

/-- A list headed by a kept character contributes a word headed by it. -/
theorem words_cons_keep {c : Char} {cs : List Char} (hc : isKeep c = true) :
    ∃ t ws, words (c :: cs) = (c :: t) :: ws := by
  cases cs with
  | nil => exact ⟨[], [], by simp [words, hc]⟩
  | cons d cs' =>
    by_cases hd : isKeep d = true
    · cases hW : words (d :: cs') with
      | nil => exact ⟨[], [], by simp [words, hc, hd, hW]⟩
      | cons w ws => exact ⟨w, ws, by simp [words, hc, hd, hW]⟩
    · exact ⟨[], words (d :: cs'), by simp [words, hc, hd]⟩

/-- A list with no words consists of non-kept characters only. -/
theorem words_nil_no_keep : ∀ l : List Char, words l = [] →
    ∀ x ∈ l, isKeep x = false := by
  intro l
  induction l with
  | nil => simp
  | cons c cs ih =>
    intro hW x hx
    by_cases hc : isKeep c = true
    · obtain ⟨t, ws, h⟩ := @words_cons_keep c cs hc
      rw [h] at hW
      exact absurd hW (by simp)
    · have hc' : isKeep c = false := by revert hc; cases isKeep c <;> simp
      have hWcs : words cs = [] := by
        cases cs with
        | nil => simp [words]
        | cons d cs' => rw [show words (c :: d :: cs') = words (d :: cs') from by
            simp [words, hc']] at hW; exact hW
      rcases List.mem_cons.mp hx with hxc | hxcs
      · subst hxc; exact hc'
      · exact ih hWcs x hxcs

/-- A non-empty list of non-kept characters ends with a non-kept
character. -/
theorem endsNonKeep_of_no_keep : ∀ l : List Char, l ≠ [] →
    (∀ x ∈ l, isKeep x = false) → endsNonKeep l = true := by
  intro l
  induction l with
  | nil => simp
  | cons c cs ih =>
    intro _ hall
    cases cs with
    | nil => simp [endsNonKeep, hall c (by simp)]
    | cons d cs' =>
      rw [show endsNonKeep (c :: d :: cs') = endsNonKeep (d :: cs') from rfl]
      exact ih (by simp) (fun x hx => hall x (List.mem_cons_of_mem c hx))

/-- Prepending a character to the first word commutes with joining. -/
theorem joinSep_cons_head (c : Char) (w : List Char) (ws : List (List Char)) :
    joinSep ((c :: w) :: ws) = c :: joinSep (w :: ws) := by
  cases ws <;> simp [joinSep]

/-- Every word is a non-empty run of kept characters. -/
theorem words_all_keep : ∀ l : List Char, ∀ w ∈ words l,
    w ≠ [] ∧ ∀ c ∈ w, isKeep c = true := by
  intro l
  induction l with
  | nil => simp [words]
  | cons c cs ih =>
    intro w hw
    cases cs with
    | nil =>
      by_cases hc : isKeep c = true
      · simp [words, hc] at hw
        subst hw
        exact ⟨by simp, by simp [hc]⟩
      · simp [words, hc] at hw
    | cons d cs' =>
      by_cases hc : isKeep c = true
      · by_cases hd : isKeep d = true
        · cases hW : words (d :: cs') with
          | nil =>
            simp [words, hc, hd, hW] at hw
            subst hw
            exact ⟨by simp, by simp [hc]⟩
          | cons w0 ws0 =>
            simp [words, hc, hd, hW] at hw
            rcases hw with hw | hw
            · subst hw
              have h0 := ih w0 (by rw [hW]; simp)
              refine ⟨by simp, ?_⟩
              intro x hx
              rcases List.mem_cons.mp hx with hx | hx
              · subst hx; exact hc
              · exact h0.2 x hx
            · exact ih w (by rw [hW]; simp [hw])
        · simp [words, hc, hd] at hw
          rcases hw with hw | hw
          · subst hw
            exact ⟨by simp, by simp [hc]⟩
          · exact ih w hw
      · have hc' : isKeep c = false := by revert hc; cases isKeep c <;> simp
        rw [show words (c :: d :: cs') = words (d :: cs') from by simp [words, hc']] at hw
        exact ih w hw

/-- The run-collapsing scan in terms of the word decomposition: an optional
leading separator, the words joined by single separators, and an optional
trailing separator. -/
theorem subRunsAux_eq : ∀ l : List Char,
    subRunsAux false l = leadSep l ++ (joinSep (words l) ++ trailSep l)
    ∧ subRunsAux true l = joinSep (words l) ++ trailSep l := by
  intro l
  induction l with
  | nil => simp [subRunsAux, words, leadSep, trailSep, joinSep, endsNonKeep]
  | cons c cs ih =>
    cases cs with
    | nil =>
      by_cases hc : isKeep c = true
      · constructor <;>
          simp [subRunsAux, words, leadSep, trailSep, joinSep, endsNonKeep, hc]
      · have hc' : isKeep c = false := by revert hc; cases isKeep c <;> simp
        constructor <;>
          simp [subRunsAux, words, leadSep, trailSep, joinSep, endsNonKeep, hc']
    | cons d cs' =>
      obtain ⟨ihF, ihT⟩ := ih
      by_cases hc : isKeep c = true
      · have hS0 : subRunsAux false (c :: d :: cs') = c :: subRunsAux false (d :: cs') := by
          simp [subRunsAux, hc]
        have hS1 : subRunsAux true (c :: d :: cs') = c :: subRunsAux false (d :: cs') := by
          simp [subRunsAux, hc]
        by_cases hd : isKeep d = true
        · obtain ⟨t, ws, hW⟩ := @words_cons_keep d cs' hd
          have hWc : words (c :: d :: cs') = (c :: d :: t) :: ws := by
            simp [words, hc, hd, hW]
          have hLd : leadSep (d :: cs') = [] := by simp [leadSep, hd]
          have hTr : trailSep (c :: d :: cs') = trailSep (d :: cs') := by
            simp [trailSep, hWc, hW, endsNonKeep]
          have hJ : joinSep ((c :: d :: t) :: ws) = c :: joinSep ((d :: t) :: ws) :=
            joinSep_cons_head c (d :: t) ws
          constructor
          · rw [hS0, ihF, hLd, hWc, hTr, hJ]
            simp [leadSep, hc, hW]
          · rw [hS1, ihF, hLd, hWc, hTr, hJ]
            simp [hW]
        · have hd' : isKeep d = false := by revert hd; cases isKeep d <;> simp
          have hWc : words (c :: d :: cs') = [c] :: words (d :: cs') := by
            simp [words, hc, hd']
          cases hW : words (d :: cs') with
          | nil =>
            have hall := words_nil_no_keep (d :: cs') hW
            have hend : endsNonKeep (d :: cs') = true :=
              endsNonKeep_of_no_keep (d :: cs') (by simp) hall
            have hTr' : trailSep (d :: cs') = [] := by simp [trailSep, hW]
            have hTrc : trailSep (c :: d :: cs') = ['_'] := by
              simp [trailSep, hWc, hW, endsNonKeep, hend]
            have hld : leadSep (d :: cs') = ['_'] := by simp [leadSep, hd']
            constructor
            · rw [hS0, ihF, hld, hW, hTr', hWc, hTrc, hW]
              simp [leadSep, hc, joinSep]
            · rw [hS1, ihF, hld, hW, hTr', hWc, hTrc, hW]
              simp [joinSep]
          | cons w0 ws0 =>
            have hTr : trailSep (c :: d :: cs') = trailSep (d :: cs') := by
              simp [trailSep, hWc, hW, endsNonKeep]
            have hld : leadSep (d :: cs') = ['_'] := by simp [leadSep, hd']
            have hJ : joinSep ([c] :: w0 :: ws0) = [c] ++ '_' :: joinSep (w0 :: ws0) := by
              simp [joinSep]
            constructor
            · rw [hS0, ihF, hld, hW, hWc, hTr, hW, hJ]
              simp [leadSep, hc]
            · rw [hS1, ihF, hld, hW, hWc, hTr, hW, hJ]
              simp
      · have hc' : isKeep c = false := by revert hc; cases isKeep c <;> simp
        have hS0 : subRunsAux false (c :: d :: cs') = '_' :: subRunsAux true (d :: cs') := by
          simp [subRunsAux, hc']
        have hS1 : subRunsAux true (c :: d :: cs') = subRunsAux true (d :: cs') := by
          simp [subRunsAux, hc']
        have hWc : words (c :: d :: cs') = words (d :: cs') := by simp [words, hc']
        have hTr : trailSep (c :: d :: cs') = trailSep (d :: cs') := by
          simp [trailSep, hWc, endsNonKeep]
        constructor
        · rw [hS0, ihT, hWc, hTr]
          simp [leadSep, hc']
        · rw [hS1, ihT, hWc, hTr]

/-- Dropping while a predicate holds skips a wholly-satisfying block. -/
theorem dropWhile_append_allp {α : Type} (p : α → Bool) (l₁ l₂ : List α)
    (h : ∀ a ∈ l₁, p a = true) :
    List.dropWhile p (l₁ ++ l₂) = List.dropWhile p l₂ := by
  induction l₁ with
  | nil => simp
  | cons a l ih =>
    rw [List.cons_append, List.dropWhile_cons, if_pos (h a (by simp))]
    exact ih (fun x hx => h x (by simp [hx]))

/-- Auxiliary length bound for `dropWhile`. -/
theorem length_dropWhile_le' {α : Type} (p : α → Bool) :
    ∀ l : List α, (List.dropWhile p l).length ≤ l.length := by
  intro l
  induction l with
  | nil => simp
  | cons a l ih =>
    by_cases h : p a = true <;> simp [List.dropWhile_cons, h]
    all_goals omega

/-- A list untouched by a leading `dropWhile` stays untouched when extended
to the right. -/
theorem dropWhile_eq_self_append {α : Type} (p : α → Bool) (R X : List α)
    (hR : List.dropWhile p R = R) (hne : R ≠ []) :
    List.dropWhile p (R ++ X) = R ++ X := by
  cases R with
  | nil => exact absurd rfl hne
  | cons r R' =>
    have hp : ¬ (p r = true) := by
      intro h
      rw [List.dropWhile_cons, if_pos h] at hR
      have hlen := congrArg List.length hR
      have hle := length_dropWhile_le' p R'
      simp at hlen
      omega
    rw [List.cons_append, List.dropWhile_cons, if_neg hp]

/-- A leading `dropWhile` is the identity when no element satisfies the
predicate. -/
theorem dropWhile_forall_false {α : Type} (p : α → Bool) (l : List α)
    (h : ∀ a ∈ l, p a = false) : List.dropWhile p l = l := by
  cases l with
  | nil => simp
  | cons a l' =>
    rw [List.dropWhile_cons, if_neg (by simp [h a (by simp)])]

/-- The joined words never start with the separator. -/
theorem joinSep_no_lead (ws : List (List Char))
    (hws : ∀ w ∈ ws, w ≠ [] ∧ ∀ c ∈ w, isKeep c = true) :
    List.dropWhile (· = '_') (joinSep ws) = joinSep ws := by
  cases ws with
  | nil => simp [joinSep]
  | cons w ws' =>
    obtain ⟨hne, hk⟩ := hws w (by simp)
    cases w with
    | nil => exact absurd rfl hne
    | cons h0 t =>
      have hp : ¬ (h0 = '_') := keep_ne_sep (hk h0 (by simp))
      rw [joinSep_cons_head]
      rw [List.dropWhile_cons, if_neg (by simp [hp])]

/-- Joined non-empty words form a non-empty list. -/
theorem joinSep_ne_nil (ws : List (List Char))
    (hws : ∀ w ∈ ws, w ≠ [] ∧ ∀ c ∈ w, isKeep c = true) (hne : ws ≠ []) :
    joinSep ws ≠ [] := by
  cases ws with
  | nil => exact absurd rfl hne
  | cons w ws' =>
    obtain ⟨hnw, _⟩ := hws w (by simp)
    cases ws' with
    | nil => simpa [joinSep] using hnw
    | cons w2 ws'' => simp [joinSep, hnw]

/-- The joined words never end with the separator. -/
theorem joinSep_rev_no_lead : ∀ ws : List (List Char),
    (∀ w ∈ ws, w ≠ [] ∧ ∀ c ∈ w, isKeep c = true) → ws ≠ [] →
    List.dropWhile (· = '_') (joinSep ws).reverse = (joinSep ws).reverse := by
  intro ws
  induction ws with
  | nil => intro _ hne; exact absurd rfl hne
  | cons w ws' ih =>
    intro hws _
    cases ws' with
    | nil =>
      obtain ⟨hnw, hk⟩ := hws w (by simp)
      rw [show joinSep [w] = w from by simp [joinSep]]
      refine dropWhile_forall_false _ _ ?_
      intro a ha
      have hak : isKeep a = true := hk a (List.mem_reverse.mp ha)
      simp [keep_ne_sep hak]
    | cons w2 ws'' =>
      have hws' : ∀ v ∈ w2 :: ws'', v ≠ [] ∧ ∀ c ∈ v, isKeep c = true :=
        fun v hv => hws v (List.mem_cons_of_mem w hv)
      have hR := ih hws' (by simp)
      have hRne : (joinSep (w2 :: ws'')).reverse ≠ [] := by
        have := joinSep_ne_nil (w2 :: ws'') hws' (by simp)
        simpa using this
      rw [show joinSep (w :: w2 :: ws'') = w ++ '_' :: joinSep (w2 :: ws'') from by
        simp [joinSep]]
      rw [List.reverse_append, List.reverse_cons, List.append_assoc]
      exact dropWhile_eq_self_append _ _ _ hR hRne

/-- The brand-key normalisation in closed form: `re.sub` + `strip` leaves
exactly the kept-character words joined by single separators. -/
theorem stripSep_subRuns (l : List Char) :
    stripSep (subRuns l) = joinSep (words l) := by
  have h := (subRunsAux_eq l).1
  rw [show subRuns l = subRunsAux false l from rfl, h]
  have hallk := words_all_keep l
  cases hWl : words l with
  | nil =>
    have hTr : trailSep l = [] := by simp [trailSep, hWl]
    rw [hTr]
    cases l with
    | nil => simp [leadSep, stripSep, joinSep]
    | cons c cs =>
      by_cases hc : isKeep c = true <;>
        simp [leadSep, hc, stripSep, joinSep, List.dropWhile]
  | cons w0 ws0 =>
    rw [hWl] at hallk
    have hm_ne : joinSep (w0 :: ws0) ≠ [] :=
      joinSep_ne_nil _ hallk (by simp)
    have hm_lead := joinSep_no_lead _ hallk
    have hm_rev := joinSep_rev_no_lead (w0 :: ws0) hallk (by simp)
    have hlead_all : ∀ a ∈ leadSep l, (decide (a = '_')) = true := by
      intro a ha
      cases l with
      | nil => simp [leadSep] at ha
      | cons c cs =>
        by_cases hc : isKeep c = true
        · simp [leadSep, hc] at ha
        · have hc' : isKeep c = false := by revert hc; cases isKeep c <;> simp
          simp [leadSep, hc'] at ha
          simp [ha]
    have htrail_all : ∀ a ∈ (trailSep l).reverse, (decide (a = '_')) = true := by
      intro a ha
      rw [List.mem_reverse] at ha
      by_cases ht : (endsNonKeep l && !(words l).isEmpty) = true
      · simp [trailSep, ht] at ha
        simp [ha]
      · simp [trailSep, ht] at ha
    unfold stripSep
    rw [dropWhile_append_allp _ _ _ hlead_all,
        dropWhile_eq_self_append _ _ _ hm_lead hm_ne,
        List.reverse_append,
        dropWhile_append_allp _ _ _ htrail_all,
        hm_rev, List.reverse_reverse]

/-- `_brand_key` in closed form: words of the lowercased brand, joined by
single separators. -/
theorem brand_key_eq_words (b : String) :
    _brand_key b = ⟨joinSep (words (lowerL b.data))⟩ :=
  congrArg String.mk (stripSep_subRuns (lowerL b.data))

/-- C4: For every pair of brand strings that differ only in letter-casing
or punctuation runs — formalised as: their lowercased forms have the same
kept-character words, which holds in particular when the lowercased forms
are equal — the analysis cache key computed for the same source id is
identical (brand normalization lowercases, collapses every run of
non-alphanumeric characters to a single separator, and trims
leading/trailing separators, so it depends only on those words), and a
second `analyze` call for an already-cached (source id, brand) pair with a
differently-cased spelling of the same brand returns the cached envelope
with a trace consisting of the single cache read: no ingest and no
generation call. -/
theorem brand_key_cache_idempotent {J : Type} (env : AnalyzeEnv J)
    (indexIdCfg : Option String) (pfx : String) (cache : Cache)
    (b1 b2 url ytid stored : String) (envlp : BrandAnalysisResult)
    (hwords : words (lowerL b1.data) = words (lowerL b2.data))
    (hext : ytIdOf (some url) none = some ytid)
    (hc : Cache.get cache (_redis_key_analysis pfx ytid b1) = some stored)
    (hd : env.decodeEnv stored = some envlp) :
    _brand_key b1 = _brand_key b2
    ∧ analyze env true indexIdCfg pfx cache
        { brand := b2, youtube_url := some url }
      = (Except.ok envlp, cache,
          [Effect.cacheGet (_redis_key_analysis pfx ytid b2)]) := by
  have hkey : _brand_key b1 = _brand_key b2 := by
    rw [brand_key_eq_words, brand_key_eq_words, hwords]
  refine ⟨hkey, ?_⟩
  have hkeys : _redis_key_analysis pfx ytid b2 = _redis_key_analysis pfx ytid b1 := by
    unfold _redis_key_analysis
    rw [hkey]
  simp only [analyze]
  rw [hext]
  simp [hkeys, hc, hd]

/-- Witness for C4: `Coca-Cola` and `coca  COLA!` share one cache key and
the second call is a pure cache hit. -/
theorem brand_key_cache_idempotent_witness :
    (words (lowerL "Coca-Cola".data) = words (lowerL "coca  COLA!".data)
      ∧ ytIdOf (some "https://www.youtube.com/watch?v=abc123") none = some "abc123"
      ∧ Cache.get cacheW (_redis_key_analysis "ba:yt:" "abc123" "Coca-Cola")
          = some "stored"
      ∧ envHit.decodeEnv "stored" = some envC4res)
    ∧ (_brand_key "Coca-Cola" = _brand_key "coca  COLA!"
      ∧ analyze envHit true none "ba:yt:" cacheW
          { brand := "coca  COLA!",
            youtube_url := some "https://www.youtube.com/watch?v=abc123" }
        = (Except.ok envC4res, cacheW,
            [Effect.cacheGet
              (_redis_key_analysis "ba:yt:" "abc123" "coca  COLA!")])) :=
  ⟨⟨by decide, by decide, by decide, rfl⟩,
    brand_key_cache_idempotent envHit none "ba:yt:" cacheW
      "Coca-Cola" "coca  COLA!" "https://www.youtube.com/watch?v=abc123"
      "abc123" "stored" envC4res (by decide) (by decide) (by decide) rfl⟩

/-- Without a YouTube id the finishing step performs no cache write. -/
theorem finishAnalyze_none {J : Type} (env : AnalyzeEnv J) (hasRedis : Bool)
    (indexId : Option String) (pfx : String) (cache : Cache) (a : AnalyzeArgs)
    (tr : List Effect) (vid : String) :
    finishAnalyze env hasRedis indexId pfx cache a none tr vid
      = (Except.ok (analyze_video env indexId vid a.brand (orT a.youtube_url a.video_url)),
          cache, tr ++ [Effect.generation vid]) := by
  cases hasRedis <;> rfl
theorem ensureIndexStep_trace {J : Type} (env : AnalyzeEnv J)
    (indexIdCfg : Option String) (tr : List Effect) (i : String) (tr2 : List Effect)
    (heq : ensureIndexStep env indexIdCfg tr = Except.ok (i, tr2)) :
    tr2.filter isCacheEffect = tr.filter isCacheEffect := by
  cases hic : indexIdCfg with
  | some i2 =>
    rw [hic] at heq
    simp only [ensureIndexStep] at heq
    injection heq with h
    injection h with h1 h2
    rw [← h2]
  | none =>
    rw [hic] at heq
    simp only [ensureIndexStep] at heq
    cases he : env.ensureIndex with
    | error m => rw [he] at heq; exact absurd heq (by simp)
    | ok i3 =>
      rw [he] at heq
      injection heq with h
      injection h with h1 h2
      rw [← h2]
      simp [List.filter_append, isCacheEffect]

theorem analyzeRest_none_cache_free {J : Type} (env : AnalyzeEnv J) (hasRedis : Bool)
    (indexIdCfg : Option String) (pfx : String) (cache : Cache) (a : AnalyzeArgs)
    (tr : List Effect) :
    (analyzeRest env hasRedis indexIdCfg pfx cache a none tr).2.1 = cache
    ∧ (analyzeRest env hasRedis indexIdCfg pfx cache a none tr).2.2.filter isCacheEffect
        = tr.filter isCacheEffect := by
  simp only [analyzeRest]
  split
  · simp [finishAnalyze_none, isCacheEffect, List.filter_append]
  · split
    · exact ⟨rfl, rfl⟩
    · split
      · rename_i m heq
        have htr : tr.filter isCacheEffect = tr.filter isCacheEffect := rfl
        simp [isCacheEffect, List.filter_append]
      · rename_i p heq
        have htr := ensureIndexStep_trace _ _ _ _ _ heq
        cases hasRedis
        · split
          · simp [isCacheEffect, List.filter_append, htr]
          · split
            · simp [isCacheEffect, List.filter_append, htr]
            · simp [finishAnalyze_none, isCacheEffect, List.filter_append, htr]
        · split
          · simp [isCacheEffect, List.filter_append, htr]
          · split
            · simp [isCacheEffect, List.filter_append, htr]
            · simp [finishAnalyze_none, isCacheEffect, List.filter_append, htr]

/-- C9: For any `analyze` call whose source is not a YouTube URL (a direct
non-YouTube `video_url`, or an explicit `video_id` with no YouTube URL
supplied — precisely, any input from which no YouTube id is extracted), no
cache read and no cache write occurs at all: the cache backend's state is
unchanged by the call and the interaction trace contains no cache
effect. -/
theorem analyze_non_youtube_no_cache {J : Type} (env : AnalyzeEnv J) (hasRedis : Bool)
    (indexIdCfg : Option String) (pfx : String) (cache : Cache) (a : AnalyzeArgs)
    (hyt : ytIdOf a.youtube_url a.video_url = none) :
    (analyze env hasRedis indexIdCfg pfx cache a).2.1 = cache
    ∧ (analyze env hasRedis indexIdCfg pfx cache a).2.2.filter isCacheEffect = [] := by
  have hred : analyze env hasRedis indexIdCfg pfx cache a
      = analyzeRest env hasRedis indexIdCfg pfx cache a none [] := by
    simp only [analyze, hyt]
  rw [hred]
  have h := analyzeRest_none_cache_free env hasRedis indexIdCfg pfx cache a []
  simpa using h

/-- Witness for C9: a direct MP4 `video_url` runs the pipeline without any
cache interaction. -/
theorem analyze_non_youtube_no_cache_witness :
    ytIdOf none (some "https://example.com/v.mp4") = none
    ∧ ((analyze envW true (some "idx0") "ba:yt:" []
          { brand := "Nike", video_url := some "https://example.com/v.mp4" }).2.1 = []
      ∧ (analyze envW true (some "idx0") "ba:yt:" []
          { brand := "Nike", video_url := some "https://example.com/v.mp4" }).2.2.filter
            isCacheEffect = []) :=
  ⟨by decide,
    analyze_non_youtube_no_cache envW true (some "idx0") "ba:yt:" []
      { brand := "Nike", video_url := some "https://example.com/v.mp4" } (by decide)⟩

/-- C10: If the cached analysis entry for a (YouTube id, normalized brand)
key exists but cannot be deserialized or validated as a
`BrandAnalysisResult` envelope, `analyze` silently ignores the corrupt
entry and runs the full pipeline instead: no exception from the cache read
or validation propagates, the call returns the freshly computed envelope
(the generation call appears in the trace) and the fresh envelope is
written over the corrupt entry. -/
theorem analyze_corrupt_cache_ignored {J : Type} (env : AnalyzeEnv J)
    (indexIdCfg : Option String) (pfx : String) (cache : Cache) (a : AnalyzeArgs)
    (y s vid : String)
    (hyt : ytIdOf a.youtube_url a.video_url = some y)
    (hvid : a.video_id = some vid)
    (hvidT : vid ≠ "")
    (hc : Cache.get cache (_redis_key_analysis pfx y a.brand) = some s)
    (hd : env.decodeEnv s = none) :
    analyze env true indexIdCfg pfx cache a
      = (Except.ok (analyze_video env indexIdCfg vid a.brand
            (orT a.youtube_url a.video_url)),
          Cache.set cache (_redis_key_analysis pfx y a.brand)
            (env.encodeEnv (analyze_video env indexIdCfg vid a.brand
              (orT a.youtube_url a.video_url))),
          [Effect.cacheGet (_redis_key_analysis pfx y a.brand),
            Effect.generation vid,
            Effect.cacheSet (_redis_key_analysis pfx y a.brand)]) := by
  have hT : isT a.video_id = true := by rw [hvid]; simp [isT, hvidT]
  simp only [analyze, hyt]
  simp only [hc, Option.some_bind, hd]
  simp only [analyzeRest, hT, if_true]
  rw [hvid]
  simp [finishAnalyze]

/-- Witness for C10: a corrupt cached entry under the key is ignored and
the pipeline runs. -/
theorem analyze_corrupt_cache_ignored_witness :
    (ytIdOf (some "https://www.youtube.com/watch?v=abc123") none = some "abc123"
      ∧ ("v1" : String) ≠ ""
      ∧ Cache.get cacheW2 (_redis_key_analysis "ba:yt:" "abc123" "Nike") = some "junk"
      ∧ envW.decodeEnv "junk" = none)
    ∧ analyze envW true (some "idx0") "ba:yt:" cacheW2
        { brand := "Nike", video_id := some "v1",
          youtube_url := some "https://www.youtube.com/watch?v=abc123" }
      = (Except.ok (analyze_video envW (some "idx0") "v1" "Nike"
            (orT (some "https://www.youtube.com/watch?v=abc123") none)),
          Cache.set cacheW2 (_redis_key_analysis "ba:yt:" "abc123" "Nike")
            (envW.encodeEnv (analyze_video envW (some "idx0") "v1" "Nike"
              (orT (some "https://www.youtube.com/watch?v=abc123") none))),
          [Effect.cacheGet (_redis_key_analysis "ba:yt:" "abc123" "Nike"),
            Effect.generation "v1",
            Effect.cacheSet (_redis_key_analysis "ba:yt:" "abc123" "Nike")]) :=
  ⟨⟨by decide, by decide, by decide, rfl⟩,
    analyze_corrupt_cache_ignored envW (some "idx0") "ba:yt:" cacheW2
      { brand := "Nike", video_id := some "v1",
        youtube_url := some "https://www.youtube.com/watch?v=abc123" }
      "abc123" "junk" "v1" (by decide) rfl (by decide) (by decide) rfl⟩
theorem Cache.get_set (c : Cache) (k v : String) :
    Cache.get (Cache.set c k v) k = some v := by
  simp [Cache.get, Cache.set, List.find?]

theorem finishAnalyze_some {J : Type} (env : AnalyzeEnv J) (indexId : Option String)
    (pfx : String) (cache : Cache) (a : AnalyzeArgs) (y : String)
    (tr : List Effect) (vid : String) :
    finishAnalyze env true indexId pfx cache a (some y) tr vid
      = (Except.ok (analyze_video env indexId vid a.brand (orT a.youtube_url a.video_url)),
          Cache.set cache (_redis_key_analysis pfx y a.brand)
            (env.encodeEnv (analyze_video env indexId vid a.brand (orT a.youtube_url a.video_url))),
          (tr ++ [Effect.generation vid]) ++ [Effect.cacheSet (_redis_key_analysis pfx y a.brand)]) :=
  rfl

theorem analyzeRest_some_ok_caches {J : Type} (env : AnalyzeEnv J)
    (indexIdCfg : Option String) (pfx : String) (cache : Cache) (a : AnalyzeArgs)
    (y : String) (tr0 : List Effect) (r : BrandAnalysisResult) (c' : Cache)
    (tr : List Effect)
    (h : analyzeRest env true indexIdCfg pfx cache a (some y) tr0 = (Except.ok r, c', tr)) :
    Cache.get c' (_redis_key_analysis pfx y a.brand) = some (env.encodeEnv r)
    ∧ Effect.cacheSet (_redis_key_analysis pfx y a.brand) ∈ tr := by
  simp only [analyzeRest] at h
  split at h
  · rw [finishAnalyze_some] at h
    simp only [Prod.mk.injEq, Except.ok.injEq] at h
    obtain ⟨h1, h2, h3⟩ := h
    subst h1
    subst h2
    subst h3
    exact ⟨Cache.get_set _ _ _, by simp⟩
  · split at h
    · simp at h
    · split at h
      · simp at h
      · split at h
        · rw [finishAnalyze_some] at h
          simp only [Prod.mk.injEq, Except.ok.injEq] at h
          obtain ⟨h1, h2, h3⟩ := h
          subst h1
          subst h2
          subst h3
          exact ⟨Cache.get_set _ _ _, by simp⟩
        · split at h
          · simp at h
          · split at h
            · simp at h
            · rw [finishAnalyze_some] at h
              simp only [Prod.mk.injEq, Except.ok.injEq] at h
              obtain ⟨h1, h2, h3⟩ := h
              subst h1
              subst h2
              subst h3
              exact ⟨Cache.get_set _ _ _, by simp⟩

/-- Counterexample to C2 as stated: a concrete `analyze` run whose envelope
has non-empty `errors` (the generation payload is not JSON) still writes
that failed envelope to the analysis cache key — the source's step 4 caches
the envelope unconditionally. -/
theorem analyze_failed_envelope_cached_counterexample :
    rC2.errors ≠ []
    ∧ analyze envW true (some "idx0") "ba:yt:" [] argsC2
        = (Except.ok rC2, cacheC2, trC2)
    ∧ Cache.get cacheC2 keyC2 = some (envW.encodeEnv rC2) := by
  refine ⟨?_, rfl, by decide⟩
  have h : rC2.errors
      = [{ code := "parse_error", message := "Response data was not valid JSON.",
            details := some "not json" }] := rfl
  rw [h]
  simp

/-- C2 amended: a cached analysis entry for a (source id, normalized brand)
key is overwritten by every completed computation for the same key,
successful or failed: whenever `analyze` returns an envelope (rather than
raising) for a YouTube-derived source with a live cache backend and the
cache read did not hit, the analysis entry is written with exactly that
envelope — even when its `errors` list is non-empty. -/
theorem analyze_ok_always_caches {J : Type} (env : AnalyzeEnv J)
    (indexIdCfg : Option String) (pfx : String) (cache : Cache) (a : AnalyzeArgs)
    (y : String) (r : BrandAnalysisResult) (c' : Cache) (tr : List Effect)
    (hyt : ytIdOf a.youtube_url a.video_url = some y)
    (hmiss : (Cache.get cache (_redis_key_analysis pfx y a.brand)).bind env.decodeEnv
        = none)
    (hok : analyze env true indexIdCfg pfx cache a = (Except.ok r, c', tr)) :
    Cache.get c' (_redis_key_analysis pfx y a.brand) = some (env.encodeEnv r)
    ∧ Effect.cacheSet (_redis_key_analysis pfx y a.brand) ∈ tr := by
  have hred : analyze env true indexIdCfg pfx cache a
      = analyzeRest env true indexIdCfg pfx cache a (some y)
          [Effect.cacheGet (_redis_key_analysis pfx y a.brand)] := by
    simp only [analyze, hyt, hmiss]
  rw [hred] at hok
  exact analyzeRest_some_ok_caches env indexIdCfg pfx cache a y _ r c' tr hok

/-- Witness for the amended C2 at the concrete failed run: the failed
envelope is written under the analysis key. -/
theorem analyze_ok_always_caches_witness :
    (ytIdOf (some "https://www.youtube.com/watch?v=abc123") none = some "abc123"
      ∧ (Cache.get [] (_redis_key_analysis "ba:yt:" "abc123" "Nike")).bind
          envW.decodeEnv = none
      ∧ analyze envW true (some "idx0") "ba:yt:" [] argsC2
          = (Except.ok rC2, cacheC2, trC2))
    ∧ (Cache.get cacheC2 (_redis_key_analysis "ba:yt:" "abc123" "Nike")
          = some (envW.encodeEnv rC2)
        ∧ Effect.cacheSet (_redis_key_analysis "ba:yt:" "abc123" "Nike") ∈ trC2) :=
  ⟨⟨by decide, rfl, rfl⟩,
    analyze_ok_always_caches envW (some "idx0") "ba:yt:" [] argsC2
      "abc123" rC2 cacheC2 trC2 (by decide) rfl rfl⟩
